import Mathlib

/-!
Verification of the CSV ingestion / validation / filtering pipeline of the
seoulgn-exam-map single-page application.  Text is modelled as `List Char`,
JavaScript numbers as `JsNum` (NaN, plus or minus Infinity, or an exact
rational), and every fallible source function as an `Except` value.  The
repository contains two variants of the CSV parser: a comma-splitting one
(`src/src/App.tsx`, `parseCSV`) and a quote-aware one
(`src/unnamed/part_002`, `parseCSV`); both are embedded below, as
`parseCSV` and `parseCSVQ` respectively.
-/

abbrev Str := List Char

/-- Whitespace characters recognised by JavaScript trim / Number coercion
(the ASCII ones, which are the only ones that can occur in this pipeline). -/
def isWs (c : Char) : Bool :=
  c == ' ' || c == '\t' || c == '\n' || c == '\r' || c == '\x0b' || c == '\x0c'

/-- Model of String.prototype.trim restricted to the left end. -/
def trimL (s : Str) : Str := s.dropWhile isWs

/-- Model of String.prototype.trim restricted to the right end. -/
def trimR (s : Str) : Str := (s.reverse.dropWhile isWs).reverse

/-- Model of JavaScript String.prototype.trim. -/
def trimStr (s : Str) : Str := trimR (trimL s)

/-- ASCII lowering, the fragment of String.prototype.toLowerCase relevant
to the data handled by this application (ASCII header names and queries;
Hangul is unaffected by case mapping). -/
def toLowerCh (c : Char) : Char :=
  if 'A' ≤ c ∧ c ≤ 'Z' then Char.ofNat (c.toNat + 32) else c

/-- Model of String.prototype.toLowerCase. -/
def toLowerStr (s : Str) : Str := s.map toLowerCh

/-- Model of JavaScript String.prototype.split with a character class:
splitting on every character satisfying `p`, keeping empty segments
(`"".split` yields one empty segment, as in JavaScript). -/
def splitOnP (p : Char → Bool) : Str → List Str
  | [] => [[]]
  | c :: cs =>
    if p c then [] :: splitOnP p cs
    else
      match splitOnP p cs with
      | [] => [[c]]
      | h :: t => (c :: h) :: t

/-- Model of String.prototype.split on a single separator character. -/
def splitOnCh (sep : Char) : Str → List Str := splitOnP (fun c => c == sep)

/-- Model of `text.split(/\r?\n/)`: a separator is a newline, optionally
preceded by a carriage return; a lone carriage return is ordinary text. -/
def splitLinesRN : Str → List Str
  | [] => [[]]
  | '\r' :: '\n' :: cs => [] :: splitLinesRN cs
  | '\n' :: cs => [] :: splitLinesRN cs
  | c :: cs =>
    match splitLinesRN cs with
    | [] => [[c]]
    | h :: t => (c :: h) :: t

/-- The tag-cell separator class of both parsers: `split(/[;|,]/)`. -/
def isTagSep (c : Char) : Bool := c == ';' || c == '|' || c == ','

/-- Splitting a tags cell on `;`, `|` or `,`. -/
def splitDelims : Str → List Str := splitOnP isTagSep

/-- Split a string at the first character satisfying `p`; the second
component is `none` when no such character occurs. -/
def splitFirst (p : Char → Bool) : Str → Str × Option Str
  | [] => ([], none)
  | c :: cs =>
    if p c then ([], some cs)
    else
      let r := splitFirst p cs
      (c :: r.1, r.2)

/-- Model of Array.prototype.findIndex, returning an index option instead
of the JavaScript `-1` sentinel. -/
def findIdxS (p : Str → Bool) : List Str → Option Nat
  | [] => none
  | h :: t => if p h then some 0 else (findIdxS p t).map (· + 1)

/-- Prepend an accumulated prefix onto the first segment of a split. -/
def consFirst (cur : Str) : List Str → List Str
  | [] => [cur]
  | h :: t => (cur ++ h) :: t

/-- Drop the last segment when it is blank (models the quote-aware row
scanner pushing its final accumulator only when it trims non-empty). -/
def dlb : List Str → List Str
  | [] => []
  | [r] => if trimStr r = [] then [] else [r]
  | r :: rs => r :: dlb rs

/-- Boolean prefix test used to model String.prototype.includes. -/
def startsWithS : Str → Str → Bool
  | [], _ => true
  | _ :: _, [] => false
  | a :: as, b :: bs => a == b && startsWithS as bs

/-- Model of JavaScript String.prototype.includes: `containsSub hay pat`
holds when `pat` occurs contiguously inside `hay`. -/
def containsSub : Str → Str → Bool
  | [], pat => pat.isEmpty
  | c :: t, pat => startsWithS pat (c :: t) || containsSub t pat

/-- An exact rational held as a numerator and a positive denominator,
normalized on construction; used for the finite JavaScript numbers of this
pipeline (which are all small decimals, exactly representable). -/
structure MyRat where
  num : Int
  den : Nat
deriving DecidableEq

/-- Normalizing constructor: divide out the greatest common divisor, so
that structural equality of constructed values is value equality. -/
def myRatNorm (n : Int) (d : Nat) : MyRat :=
  if d = 0 then ⟨0, 1⟩
  else
    let g := Nat.gcd n.natAbs d
    let nn := n.natAbs / g
    ⟨if n < 0 then -(nn : Int) else (nn : Int), d / g⟩

/-- An integer as a `MyRat`. -/
def MyRat.ofInt (n : Int) : MyRat := ⟨n, 1⟩

/-- Value comparison of rationals by cross multiplication. -/
def MyRat.le (a b : MyRat) : Bool := decide (a.num * b.den ≤ b.num * a.den)

/-- Negation (normalization is preserved). -/
def MyRat.neg (a : MyRat) : MyRat := ⟨-a.num, a.den⟩

/-- Multiplication by a power of ten, for the exponent part of a numeric
literal. -/
def MyRat.mulPow10 (a : MyRat) : Int → MyRat
  | .ofNat k => myRatNorm (a.num * ((10 : Nat) ^ k : Nat)) a.den
  | .negSucc k => myRatNorm a.num (a.den * 10 ^ (k + 1))

/-- A JavaScript number as it matters to this pipeline: NaN, an infinity,
or a finite value (held exactly as a rational). -/
inductive JsNum where
  | nan
  | posInf
  | negInf
  | fin (q : MyRat)
deriving DecidableEq

/-- Model of Number.isNaN. -/
def JsNum.isNaN : JsNum → Bool
  | .nan => true
  | _ => false

/-- JavaScript comparison `x >= q` against a finite bound; false on NaN. -/
def jsGeQ : JsNum → MyRat → Bool
  | .nan, _ => false
  | .posInf, _ => true
  | .negInf, _ => false
  | .fin v, q => q.le v

/-- JavaScript comparison `x <= q` against a finite bound; false on NaN. -/
def jsLeQ : JsNum → MyRat → Bool
  | .nan, _ => false
  | .posInf, _ => false
  | .negInf, _ => true
  | .fin v, q => v.le q

/-- Decimal digit test. -/
def isDigit10 (c : Char) : Bool := decide (48 ≤ c.toNat ∧ c.toNat ≤ 57)

/-- Value of a digit character in any radix up to 16. -/
def digitVal (c : Char) : ℕ :=
  if 97 ≤ c.toNat then c.toNat - 87
  else if 65 ≤ c.toNat then c.toNat - 55
  else c.toNat - 48

/-- Digit test for radix 2, 8 or 16. -/
def isRadixDigit (r : ℕ) (c : Char) : Bool :=
  (isDigit10 c || decide (97 ≤ c.toNat ∧ c.toNat ≤ 102)
    || decide (65 ≤ c.toNat ∧ c.toNat ≤ 70)) && decide (digitVal c < r)

/-- Value of a digit string in radix `r`. -/
def digitsValNat (r : ℕ) (l : Str) : ℕ :=
  l.foldl (fun a c => a * r + digitVal c) 0

/-- Non-decimal integer branch of JavaScript Number (after `0x`, `0o` or
`0b`): all remaining characters must be digits of the radix. -/
def radixParse (r : ℕ) (digits : Str) : Option JsNum :=
  if digits ≠ [] ∧ digits.all (isRadixDigit r) then
    some (.fin (.ofInt (digitsValNat r digits)))
  else none

/-- The literal accepted by Number as an infinity. -/
def infinityStr : Str := "Infinity".toList

/-- Exponent part of a StrDecimalLiteral: optional sign, then digits. -/
def parseExpPart : Str → Option Int
  | '+' :: ds =>
    if ds ≠ [] ∧ ds.all isDigit10 then some (digitsValNat 10 ds) else none
  | '-' :: ds =>
    if ds ≠ [] ∧ ds.all isDigit10 then some (-(digitsValNat 10 ds : Int)) else none
  | ds =>
    if ds ≠ [] ∧ ds.all isDigit10 then some (digitsValNat 10 ds) else none

/-- Mantissa of a StrDecimalLiteral: digits, digits.digits, digits. or
.digits; at least one digit overall. -/
def parseMantissa (m : Str) : Option MyRat :=
  match splitFirst (fun c => c == '.') m with
  | (ip, none) =>
    if ip ≠ [] ∧ ip.all isDigit10 then some (.ofInt (digitsValNat 10 ip)) else none
  | (ip, some fp) =>
    if (ip ≠ [] ∨ fp ≠ []) ∧ ip.all isDigit10 ∧ fp.all isDigit10 then
      some (myRatNorm
        ((digitsValNat 10 ip * 10 ^ fp.length + digitsValNat 10 fp : Nat) : Int)
        (10 ^ fp.length))
    else none

/-- Unsigned decimal branch of Number: Infinity, or mantissa with an
optional exponent. -/
def parseUnsignedDec (u : Str) : Option JsNum :=
  if u = infinityStr then some .posInf
  else
    match splitFirst (fun c => c == 'e' || c == 'E') u with
    | (m, none) => (parseMantissa m).map .fin
    | (m, some ex) =>
      match parseMantissa m, parseExpPart ex with
      | some v, some e => some (.fin (v.mulPow10 e))
      | _, _ => none

/-- JavaScript unary minus on a number. -/
def jsNeg : JsNum → JsNum
  | .nan => .nan
  | .posInf => .negInf
  | .negInf => .posInf
  | .fin v => .fin v.neg

/-- Signed decimal branch of Number. -/
def parseDec : Str → Option JsNum
  | '+' :: u => parseUnsignedDec u
  | '-' :: u => (parseUnsignedDec u).map jsNeg
  | u => parseUnsignedDec u

/-- A whole (already trimmed, non-empty) string read as a JavaScript
numeric literal: hex, octal and binary forms, else the decimal grammar. -/
def parseNumLit (t : Str) : Option JsNum :=
  match t with
  | '0' :: c :: rest =>
    if c == 'x' || c == 'X' then radixParse 16 rest
    else if c == 'o' || c == 'O' then radixParse 8 rest
    else if c == 'b' || c == 'B' then radixParse 2 rest
    else parseDec t
  | _ => parseDec t

/-- Model of the JavaScript `Number(string)` coercion used by both parsers:
trim, empty means zero, otherwise parse the numeric literal, NaN on
failure. -/
def jsNumber (s : Str) : JsNum :=
  let t := trimStr s
  if t = [] then .fin (.ofInt 0)
  else
    match parseNumLit t with
    | some v => v
    | none => .nan

/-- One center record (the `Center` type of App.tsx); optional string
fields that the parsers always populate are plain `Str` here, with the
empty string playing the part of the missing value. -/
structure Center where
  id : Str
  name : Str
  address : Str
  lat : JsNum
  lng : JsNum
  phone : Str
  hours : Str
  note : Str
  tags : List Str
deriving DecidableEq

/-- A rectangular geographic bound `[[w, s], [e, n]]` with finite numeric
corners, as destructured by `validateCenters`. -/
structure Bounds where
  w : MyRat
  s : MyRat
  e : MyRat
  n : MyRat
deriving DecidableEq

/-- The fixed jurisdiction bound `TARGET_BOUNDS` of the application:
`[[126.96, 37.43], [127.18, 37.59]]`. -/
def TARGET_BOUNDS : Bounds :=
  { w := myRatNorm 12696 100, s := myRatNorm 3743 100,
    e := myRatNorm 12718 100, n := myRatNorm 3759 100 }

/-- Decidable equality of `Except` results, for evaluating the embedded
functions on concrete inputs. -/
instance {e a : Type} [DecidableEq e] [DecidableEq a] : DecidableEq (Except e a) := fun x y =>
  match x, y with
  | .error u, .error v =>
    if h : u = v then .isTrue (by rw [h]) else .isFalse (by intro hh; cases hh; exact h rfl)
  | .ok u, .ok v =>
    if h : u = v then .isTrue (by rw [h]) else .isFalse (by intro hh; cases hh; exact h rfl)
  | .error _, .ok _ => .isFalse (by intro hh; cases hh)
  | .ok _, .error _ => .isFalse (by intro hh; cases hh)

/-- The column indices computed from a header row (JavaScript `-1` is
`none`). -/
structure ColIdx where
  idI : Option Nat
  nameI : Option Nat
  addrI : Option Nat
  latI : Option Nat
  lngI : Option Nat
  phoneI : Option Nat
  hoursI : Option Nat
  noteI : Option Nat
  tagsI : Option Nat
deriving DecidableEq

/-- Failure modes of the parsers: the header assertion shared by both
variants, and the uncaught TypeError the quote-aware variant raises when
the scanned row list is empty (`rows[0].split` on undefined). -/
inductive ParseErr where
  | badHeader
  | noHeaderRow
deriving DecidableEq

/-- Column-name keys, compared lowercased. -/
def keyId : Str := "id".toList
def keyName : Str := "name".toList
def keyAddress : Str := "address".toList
def keyLat : Str := "lat".toList
def keyLng : Str := "lng".toList
def keyPhone : Str := "phone".toList
def keyHours : Str := "hours".toList
def keyNote : Str := "note".toList
def keyTags : Str := "tags".toList

/-- Header lookup of the comma-splitting parser: cells are trimmed and the
comparison lowercases each header cell (`h.toLowerCase() === k`). -/
def headerIdxS (line : Str) : ColIdx :=
  let header := (splitOnCh ',' line).map trimStr
  let idx := fun (k : Str) => findIdxS (fun h => toLowerStr h == k) header
  { idI := idx keyId, nameI := idx keyName, addrI := idx keyAddress,
    latI := idx keyLat, lngI := idx keyLng, phoneI := idx keyPhone,
    hoursI := idx keyHours, noteI := idx keyNote, tagsI := idx keyTags }

/-- Header lookup of the quote-aware parser: cells are trimmed and
lowercased up front, then compared verbatim (`h === k`). -/
def headerIdxQ (line : Str) : ColIdx :=
  let header := (splitOnCh ',' line).map (fun h => toLowerStr (trimStr h))
  let idx := fun (k : Str) => findIdxS (fun h => h == k) header
  { idI := idx keyId, nameI := idx keyName, addrI := idx keyAddress,
    latI := idx keyLat, lngI := idx keyLng, phoneI := idx keyPhone,
    hoursI := idx keyHours, noteI := idx keyNote, tagsI := idx keyTags }

/-- The header assertion of both parsers: id, name, lat and lng present. -/
def requiredOK (ix : ColIdx) : Bool :=
  ix.idI.isSome && ix.nameI.isSome && ix.latI.isSome && ix.lngI.isSome

/-- Cell access shared in shape by both parsers: a missing column gives
the empty string, an in-range cell is trimmed, an out-of-range index gives
the empty string (`cells[i]?.trim() ?? ""` and `(cells[i] ?? "").trim()`
agree on this). -/
def cellAt (cells : List Str) : Option Nat → Str
  | none => []
  | some j => trimStr (cells.getD j [])

/-- Record construction of the comma-splitting parser for one data row
already split into cells; the tags cell is split on `;`, `|` or `,` only
when non-empty (`tagsRaw ? ... : []`). -/
def mkCenterS (cells : List Str) (ix : ColIdx) : Center :=
  let get := cellAt cells
  { id := get ix.idI, name := get ix.nameI, address := get ix.addrI,
    lat := jsNumber (get ix.latI), lng := jsNumber (get ix.lngI),
    phone := get ix.phoneI, hours := get ix.hoursI, note := get ix.noteI,
    tags :=
      let tagsRaw := get ix.tagsI
      if tagsRaw = [] then []
      else ((splitDelims tagsRaw).map trimStr).filter (fun t => t ≠ []) }

/-- Data-row loop of the comma-splitting parser: split each row on plain
commas, skip a row that produced a single blank cell, build a record. -/
def rowsToCentersS (ix : ColIdx) : List Str → List Center
  | [] => []
  | row :: rest =>
    let cells := splitOnCh ',' row
    if cells.length = 1 ∧ trimStr (cells.headD []) = [] then
      rowsToCentersS ix rest
    else mkCenterS cells ix :: rowsToCentersS ix rest

/-- Line phase of the comma-splitting parser: split on `/\r?\n/` and keep
only lines with non-blank trim. -/
def linesS (text : Str) : List Str :=
  (splitLinesRN text).filter (fun l => !(trimStr l).isEmpty)

/-- The comma-splitting parser variant (`parseCSV` of src/src/App.tsx):
empty input is a zero-row dataset, the first non-blank line is the header,
the header must contain id, name, lat and lng (case-insensitively) or the
whole parse fails. -/
def parseCSV (text : Str) : Except ParseErr (List Center) :=
  match linesS text with
  | [] => .ok []
  | l0 :: rest =>
    let ix := headerIdxS l0
    if requiredOK ix then .ok (rowsToCentersS ix rest) else .error .badHeader

/-- Row scanner of the quote-aware parser: a doubled quote is an escaped
literal quote, an unescaped quote toggles the in-quotes state, a newline
outside quotes ends the row, and the final accumulator is kept only when
it trims non-blank. -/
def scanRows : Str → Bool → Str → List Str
  | [], _, cur => if trimStr cur = [] then [] else [cur]
  | '"' :: '"' :: cs, inQ, cur => scanRows cs inQ (cur ++ ['"'])
  | '"' :: cs, inQ, cur => scanRows cs (!inQ) cur
  | '\n' :: cs, false, cur => cur :: scanRows cs false []
  | c :: cs, inQ, cur => scanRows cs inQ (cur ++ [c])

/-- Cell scanner of the quote-aware parser (its `splitRow`): same quote
rules, a comma outside quotes ends the cell, every cell trimmed. -/
def scanCells : Str → Bool → Str → List Str
  | [], _, cell => [trimStr cell]
  | '"' :: '"' :: cs, q, cell => scanCells cs q (cell ++ ['"'])
  | '"' :: cs, q, cell => scanCells cs (!q) cell
  | ',' :: cs, false, cell => trimStr cell :: scanCells cs false []
  | c :: cs, q, cell => scanCells cs q (cell ++ [c])

/-- The quote-aware row splitter `splitRow`. -/
def splitRowQ (r : Str) : List Str := scanCells r false []

/-- Record construction of the quote-aware parser: identical to the
comma-splitting one except that the tags expression splits the cell
unconditionally (`(val(tagsI) || "").split(...)`). -/
def mkCenterQ (cells : List Str) (ix : ColIdx) : Center :=
  let val := cellAt cells
  { id := val ix.idI, name := val ix.nameI, address := val ix.addrI,
    lat := jsNumber (val ix.latI), lng := jsNumber (val ix.lngI),
    phone := val ix.phoneI, hours := val ix.hoursI, note := val ix.noteI,
    tags := ((splitDelims (val ix.tagsI)).map trimStr).filter (fun t => t ≠ []) }

/-- Data-row loop of the quote-aware parser: blank rows are skipped
(`if (!r.trim()) continue`), the rest are split quote-aware. -/
def rowsToCentersQ (ix : ColIdx) : List Str → List Center
  | [] => []
  | r :: rest =>
    if trimStr r = [] then rowsToCentersQ ix rest
    else mkCenterQ (splitRowQ r) ix :: rowsToCentersQ ix rest

/-- The rows computed by the quote-aware parser for a given input. -/
def rowsQ (text : Str) : List Str := scanRows text false []

/-- The quote-aware parser variant (`parseCSV` of src/unnamed/part_002):
scans rows honouring quotes, reads `rows[0]` as the header with no
emptiness guard (an empty row list raises a TypeError, modelled as
`ParseErr.noHeaderRow`), asserts the required columns, then builds one
record per non-blank data row. -/
def parseCSVQ (text : Str) : Except ParseErr (List Center) :=
  match rowsQ text with
  | [] => .error .noHeaderRow
  | r0 :: rest =>
    let ix := headerIdxQ r0
    if requiredOK ix then .ok (rowsToCentersQ ix rest) else .error .badHeader

/-- Validation failures, identifying the failing field and the offending
record by id or name, exactly the information carried by the assert
messages of `validateCenters`. -/
inductive ValErr where
  | invalidId (name : Str)
  | invalidName (id : Str)
  | latNaN (id : Str)
  | lngNaN (id : Str)
  | latOOB (id : Str)
  | lngOOB (id : Str)
deriving DecidableEq

/-- The checks `validateCenters` runs on one record, in source order:
non-empty id, non-empty name, non-NaN lat, non-NaN lng, then, when a bound
is supplied, lat within south and north and lng within west and east,
using JavaScript comparisons (false on NaN). -/
def checkCenter (b : Option Bounds) (c : Center) : Except ValErr Unit :=
  if c.id = [] then .error (.invalidId c.name)
  else if c.name = [] then .error (.invalidName c.id)
  else if c.lat.isNaN then .error (.latNaN c.id)
  else if c.lng.isNaN then .error (.lngNaN c.id)
  else
    match b with
    | none => .ok ()
    | some bd =>
      if !(jsGeQ c.lat bd.s && jsLeQ c.lat bd.n) then .error (.latOOB c.id)
      else if !(jsGeQ c.lng bd.w && jsLeQ c.lng bd.e) then .error (.lngOOB c.id)
      else .ok ()

/-- The Validator (`validateCenters` of src/src/App.tsx): walks the batch
in input order and throws at the first failing check. -/
def validateCenters (l : List Center) (b : Option Bounds) : Except ValErr Unit :=
  match l with
  | [] => .ok ()
  | c :: rest =>
    match checkCenter b c with
    | .error e => .error e
    | .ok _ => validateCenters rest b

/-- The record invariant of the specification, spelled out independently
of the Validator: non-empty id and name, non-NaN coordinates and, when a
bound is supplied, coordinates inside it. -/
def centerOK (b : Option Bounds) (c : Center) : Bool :=
  !c.id.isEmpty && !c.name.isEmpty && !c.lat.isNaN && !c.lng.isNaN &&
    (match b with
     | none => true
     | some bd =>
       jsGeQ c.lat bd.s && jsLeQ c.lat bd.n && jsGeQ c.lng bd.w && jsLeQ c.lng bd.e)

/-- The three literal category values. -/
def tagPractical : Str := "실기(작업)".toList
def tagWritten : Str := "필기".toList
def tagOther : Str := "기타".toList

/-- `hasTag` of the application: some tag of the record trims to `t`. -/
def hasTag (c : Center) (t : Str) : Bool := c.tags.any (fun x => trimStr x == t)

/-- The derived `examType` of one feature: practical wins, then written,
else the residual category. -/
def examType (c : Center) : Str :=
  if hasTag c tagPractical then tagPractical
  else if hasTag c tagWritten then tagWritten
  else tagOther

/-- The synthesized search string of one record:
`[name, address, note, ...tags].join(" ")`. -/
def searchHay (c : Center) : Str :=
  (List.intersperse [' '] ([c.name, c.address, c.note] ++ c.tags)).flatten

/-- The free-text stage of the `filtered` memo: lowercase the trimmed
query; when it is non-empty keep the records whose lowercased search
string contains it. -/
def textFiltered (centers : List Center) (query : Str) : List Center :=
  let q := toLowerStr (trimStr query)
  if q = [] then centers
  else centers.filter (fun c => containsSub (toLowerStr (searchHay c)) q)

/-- The full `filtered` memo: free-text stage first, then, when at least
one tag is active, keep the records whose tag list meets the active set. -/
def filteredCenters (centers : List Center) (query : Str) (activeTags : List Str) :
    List Center :=
  let arr := textFiltered centers query
  if activeTags.length > 0 then
    arr.filter (fun c => c.tags.any (fun t => activeTags.contains t))
  else arr

/-- Rendering of a parse failure as the surfaced message: the assert
message for the header failure, the engine TypeError text otherwise. -/
def parseErrMsg : ParseErr → Str
  | .badHeader => "Test failed: CSV header must include id,name,lat,lng".toList
  | .noHeaderRow => "Cannot read properties of undefined (reading split)".toList

/-- Rendering of a validation failure as the surfaced assert message. -/
def valErrMsg : ValErr → Str
  | .invalidId n => "Test failed: invalid id for ".toList ++ n
  | .invalidName i => "Test failed: invalid name for ".toList ++ i
  | .latNaN i => "Test failed: lat must be number: ".toList ++ i
  | .lngNaN i => "Test failed: lng must be number: ".toList ++ i
  | .latOOB i => "Test failed: lat out of bounds: ".toList ++ i
  | .lngOOB i => "Test failed: lng out of bounds: ".toList ++ i

/-- The slice of UI state touched by the admin data-entry path: the active
record batch and the surfaced CSV error. -/
structure AppState where
  centers : List Center
  csvError : Option Str
deriving DecidableEq

/-- `onUploadCSV` of src/src/App.tsx on the text read from the file:
clear the error, parse with the comma-splitting parser, validate against
the jurisdiction bound, and replace the batch only when both succeed; any
thrown error is caught and surfaced, leaving the batch untouched. -/
def onUploadCSV (s : AppState) (text : Str) : AppState :=
  match parseCSV text with
  | .error e => { centers := s.centers, csvError := some (parseErrMsg e) }
  | .ok parsed =>
    match validateCenters parsed (some TARGET_BOUNDS) with
    | .error e => { centers := s.centers, csvError := some (valErrMsg e) }
    | .ok _ => { centers := parsed, csvError := none }

/-- `onPasteCSV` of src/unnamed/part_002: same shape, with the quote-aware
parser. -/
def onPasteCSV (s : AppState) (text : Str) : AppState :=
  match parseCSVQ text with
  | .error e => { centers := s.centers, csvError := some (parseErrMsg e) }
  | .ok parsed =>
    match validateCenters parsed (some TARGET_BOUNDS) with
    | .error e => { centers := s.centers, csvError := some (valErrMsg e) }
    | .ok _ => { centers := parsed, csvError := none }

/-! Concrete inputs used by witnesses and counterexamples. -/

/-- A well-formed two-line CSV input. -/
def csvGood : Str := "id,name,lat,lng\nc1,Alpha,37.5,127.05".toList

/-- The record `csvGood` parses to. -/
def centerGood : Center :=
  { id := "c1".toList, name := "Alpha".toList, address := [],
    lat := .fin ⟨75, 2⟩, lng := .fin ⟨2541, 20⟩,
    phone := [], hours := [], note := [], tags := [] }

/-- An input whose header lacks every required column. -/
def csvBadHeader : Str := "foo,bar\n1,2".toList

/-- An input whose single data row has an empty lat cell. -/
def csvEmptyLat : Str := "id,name,lat,lng\nc1,Alpha,,127.05".toList

/-- The record `csvEmptyLat` parses to: the empty cell coerced to zero. -/
def centerZeroLat : Center :=
  { id := "c1".toList, name := "Alpha".toList, address := [],
    lat := .fin ⟨0, 1⟩, lng := .fin ⟨2541, 20⟩,
    phone := [], hours := [], note := [], tags := [] }

/-- An input whose single data row has a non-numeric lat cell. -/
def csvBadLat : Str := "id,name,lat,lng\nc1,Alpha,abc,127.05".toList

/-- The record `csvBadLat` parses to: the bad cell coerced to NaN. -/
def centerNaNLat : Center :=
  { id := "c1".toList, name := "Alpha".toList, address := [],
    lat := .nan, lng := .fin ⟨2541, 20⟩,
    phone := [], hours := [], note := [], tags := [] }

/-- A non-numeric string for the coercion witness. -/
def strAbc : Str := "abc".toList

/-- The empty input text. -/
def emptyText : Str := []

/-- A record whose only tag trims to the written marker but is not the
literal written tag (it carries a leading space). -/
def cSpacedTag : Center :=
  { id := ['c'], name := ['n'], address := [], lat := .fin ⟨0, 1⟩,
    lng := .fin ⟨0, 1⟩, phone := [], hours := [], note := [],
    tags := [' ' :: tagWritten] }

/-- A record carrying both the written and the practical literal tags. -/
def cBothTags : Center :=
  { id := ['c'], name := ['n'], address := [], lat := .fin ⟨0, 1⟩,
    lng := .fin ⟨0, 1⟩, phone := [], hours := [], note := [],
    tags := [tagWritten, tagPractical] }

/-- A record named `ax` with no other text. -/
def cAx : Center :=
  { id := ['c'], name := ['a', 'x'], address := [], lat := .fin ⟨0, 1⟩,
    lng := .fin ⟨0, 1⟩, phone := [], hours := [], note := [], tags := [] }

/-- A query that is non-empty but carries a leading space. -/
def qSpaceX : Str := [' ', 'x']

/-- A record with one single-letter tag. -/
def cTagged : Center :=
  { id := ['c'], name := ['n'], address := [], lat := .fin ⟨0, 1⟩,
    lng := .fin ⟨0, 1⟩, phone := [], hours := [], note := [],
    tags := [['t']] }

/-- A starting UI state holding one record and no error. -/
def s0 : AppState := { centers := [centerGood], csvError := none }

/-! Validator lemmas. -/

/-- The per-record checks succeed exactly on records satisfying the
spelled-out invariant. -/
theorem checkCenter_ok_iff (b : Option Bounds) (c : Center) :
    checkCenter b c = .ok () ↔ centerOK b c = true := by
  unfold checkCenter centerOK
  rcases b with _ | bd
  · by_cases h1 : c.id = [] <;> by_cases h2 : c.name = [] <;>
      cases h3 : c.lat.isNaN <;> cases h4 : c.lng.isNaN <;>
      simp_all [List.isEmpty_iff]
  · by_cases h1 : c.id = [] <;> by_cases h2 : c.name = [] <;>
      cases h3 : c.lat.isNaN <;> cases h4 : c.lng.isNaN <;>
      cases h5 : jsGeQ c.lat bd.s <;> cases h6 : jsLeQ c.lat bd.n <;>
      cases h7 : jsGeQ c.lng bd.w <;> cases h8 : jsLeQ c.lng bd.e <;>
      simp_all [List.isEmpty_iff]

/-- The Validator succeeds exactly when every record in the batch
satisfies the invariant. -/
theorem validateCenters_ok_iff (l : List Center) (b : Option Bounds) :
    validateCenters l b = .ok () ↔ ∀ c ∈ l, centerOK b c = true := by
  induction l with
  | nil => simp [validateCenters]
  | cons c rest ih =>
    simp only [validateCenters]
    cases hc : checkCenter b c with
    | error e =>
      have : ¬ centerOK b c = true := by
        rw [← checkCenter_ok_iff b c]; simp [hc]
      simp [this]
    | ok u =>
      cases u
      have : centerOK b c = true := (checkCenter_ok_iff b c).mp hc
      simp [this, ih]

/-- A Validator failure comes from the first record violating the
invariant, with all earlier records valid. -/
theorem validateCenters_err (l : List Center) (b : Option Bounds) (e : ValErr) :
    validateCenters l b = .error e →
    ∃ pre c post, l = pre ++ c :: post ∧ (∀ c2 ∈ pre, centerOK b c2 = true) ∧
      centerOK b c = false ∧ checkCenter b c = .error e := by
  induction l with
  | nil => intro h; simp [validateCenters] at h
  | cons c rest ih =>
    intro h
    simp only [validateCenters] at h
    cases hc : checkCenter b c with
    | error e2 =>
      rw [hc] at h
      cases h
      refine ⟨[], c, rest, rfl, by simp, ?_, hc⟩
      have : ¬ centerOK b c = true := by
        rw [← checkCenter_ok_iff b c]; simp [hc]
      simpa using this
    | ok u =>
      cases u
      rw [hc] at h
      obtain ⟨pre, c2, post, hsplit, hpre, hbad, hchk⟩ := ih h
      refine ⟨c :: pre, c2, post, by rw [hsplit, List.cons_append], ?_, hbad, hchk⟩
      intro c3 hc3
      rcases List.mem_cons.mp hc3 with h3 | h3
      · rw [h3]; exact (checkCenter_ok_iff b c).mp hc
      · exact hpre c3 h3

/-- C1: for every input text, running the Validator on the Parser's output
succeeds iff every parsed record has a non-empty id, a non-empty name and
non-NaN coordinates, within the rectangular bound when one is supplied; a
single violating record rejects the whole batch, and the reported failure
is the first violation in input order (earlier records all valid, and the
error is the offending record's first failing check). -/
theorem c1_validator_iff_invariants (text : Str) (l : List Center) (b : Option Bounds)
    (hp : parseCSV text = .ok l) :
    (validateCenters l b = .ok () ↔ ∀ c ∈ l, centerOK b c = true) ∧
    (∀ e, validateCenters l b = .error e →
      ∃ pre c post, l = pre ++ c :: post ∧ (∀ c2 ∈ pre, centerOK b c2 = true) ∧
        centerOK b c = false ∧ checkCenter b c = .error e) :=
  ⟨validateCenters_ok_iff l b, fun e => validateCenters_err l b e⟩

/-- Witness for C1 at a concrete parse. -/
theorem c1_witness : validateCenters [centerGood] none = Except.ok () :=
  (c1_validator_iff_invariants csvGood [centerGood] none (by decide)).1.mpr (by decide)

/-! Category derivation (C2). -/

/-- `hasTag` holds exactly when some tag of the record trims to `t`. -/
theorem hasTag_iff (c : Center) (t : Str) :
    hasTag c t = true ↔ ∃ x ∈ c.tags, trimStr x = t := by
  simp [hasTag, List.any_eq_true, beq_iff_eq]

/-- C2 (amended): the derived category follows the fixed priority
practical, then written, then other, with membership tested up to
whitespace trimming of each tag. -/
theorem c2_exam_type_priority (c : Center) :
    ((∃ x ∈ c.tags, trimStr x = tagPractical) → examType c = tagPractical) ∧
    ((¬ ∃ x ∈ c.tags, trimStr x = tagPractical) →
      (∃ x ∈ c.tags, trimStr x = tagWritten) → examType c = tagWritten) ∧
    ((¬ ∃ x ∈ c.tags, trimStr x = tagPractical) →
      (¬ ∃ x ∈ c.tags, trimStr x = tagWritten) → examType c = tagOther) := by
  refine ⟨fun h => ?_, fun h1 h2 => ?_, fun h1 h2 => ?_⟩
  · unfold examType
    rw [if_pos ((hasTag_iff c tagPractical).mpr h)]
  · unfold examType
    rw [if_neg (fun hh => h1 ((hasTag_iff c tagPractical).mp hh)),
      if_pos ((hasTag_iff c tagWritten).mpr h2)]
  · unfold examType
    rw [if_neg (fun hh => h1 ((hasTag_iff c tagPractical).mp hh)),
      if_neg (fun hh => h2 ((hasTag_iff c tagWritten).mp hh))]

/-- Counterexample to C2 as stated: a record carrying neither literal tag
(only a space-padded variant of the written tag) is still not classified
into the residual category. -/
theorem c2_counterexample :
    tagPractical ∉ cSpacedTag.tags ∧ tagWritten ∉ cSpacedTag.tags ∧
      examType cSpacedTag ≠ tagOther := by decide

/-- Witness for C2: a record carrying both literal tags is classified
practical. -/
theorem c2_witness : examType cBothTags = tagPractical :=
  (c2_exam_type_priority cBothTags).1 (by decide)

/-! Filtering (C3, C4). -/

/-- Empty search pattern: `includes` always holds. -/
theorem containsSub_nil (h : Str) : containsSub h [] = true := by
  cases h <;> simp [containsSub, startsWithS, List.isEmpty]

/-- C3: whenever at least one tag is active, the filtered set holds
exactly the records, among those passing the free-text stage, whose tag
list shares at least one element with the active set. -/
theorem c3_tag_filter_or (centers : List Center) (query : Str)
    (activeTags : List Str) (c : Center) (h : activeTags ≠ []) :
    c ∈ filteredCenters centers query activeTags ↔
      c ∈ textFiltered centers query ∧ ∃ t ∈ c.tags, t ∈ activeTags := by
  unfold filteredCenters
  rw [if_pos (List.length_pos.mpr h), List.mem_filter]
  constructor
  · rintro ⟨hm, ha⟩
    obtain ⟨t, ht, hc2⟩ := List.any_eq_true.mp ha
    exact ⟨hm, t, ht, List.elem_iff.mp hc2⟩
  · rintro ⟨hm, t, ht, hta⟩
    exact ⟨hm, List.any_eq_true.mpr ⟨t, ht, List.elem_iff.mpr hta⟩⟩

/-- Witness for C3: a record matching the single active tag is kept. -/
theorem c3_witness : cTagged ∈ filteredCenters [cTagged] [] [['t']] :=
  (c3_tag_filter_or [cTagged] [] [['t']] cTagged (by decide)).mpr
    ⟨by decide, ['t'], by decide, by decide⟩

/-- C4 (amended): the pipeline applies the free-text stage first; the
free-text stage keeps exactly the records whose synthesized search string
contains the trimmed query case-insensitively; and the stage never grows
the record set. -/
theorem c4_text_filter (centers : List Center) (query : Str)
    (activeTags : List Str) (c : Center) :
    (filteredCenters centers query activeTags =
      (if activeTags.length > 0 then
        (textFiltered centers query).filter
          (fun c2 => c2.tags.any (fun t => activeTags.contains t))
      else textFiltered centers query)) ∧
    (c ∈ textFiltered centers query ↔
      c ∈ centers ∧
        containsSub (toLowerStr (searchHay c)) (toLowerStr (trimStr query)) = true) ∧
    List.Sublist (textFiltered centers query) centers := by
  refine ⟨rfl, ?_, ?_⟩
  · simp only [textFiltered]
    by_cases hq : toLowerStr (trimStr query) = []
    · rw [if_pos hq, hq]
      simp [containsSub_nil]
    · rw [if_neg hq, List.mem_filter]
  · simp only [textFiltered]
    by_cases hq : toLowerStr (trimStr query) = []
    · rw [if_pos hq]
    · rw [if_neg hq]
      exact List.filter_sublist centers

/-- Counterexample to C4 as stated: with the query holding a leading
space, a record is kept although its search string does not contain the
query itself (only its trimmed form). -/
theorem c4_counterexample :
    filteredCenters [cAx] qSpaceX [] = [cAx] ∧
      containsSub (toLowerStr (searchHay cAx)) (toLowerStr qSpaceX) = false := by
  decide

/-! Header assertion (C5, C10). -/

/-- The header line of `csvBadHeader`. -/
def lineFooBar : Str := "foo,bar".toList

/-- The data line of `csvBadHeader`. -/
def lineOneTwo : Str := "1,2".toList

/-- The header line of `csvGood`. -/
def lineHeaderGood : Str := "id,name,lat,lng".toList

/-- The data line of `csvGood`. -/
def lineRowGood : Str := "c1,Alpha,37.5,127.05".toList

/-- C5: for both parser variants, an input whose header row lacks one of
id, name, lat, lng (case-insensitively) fails wholesale with the header
error and returns no record list, and an input whose header row has all
four cannot fail for this reason (the parse succeeds). -/
theorem c5_header_assertion (text : Str) :
    (∀ l0 rest, linesS text = l0 :: rest →
      (requiredOK (headerIdxS l0) = false → parseCSV text = .error .badHeader) ∧
      (requiredOK (headerIdxS l0) = true →
        parseCSV text = .ok (rowsToCentersS (headerIdxS l0) rest))) ∧
    (∀ r0 rest, rowsQ text = r0 :: rest →
      (requiredOK (headerIdxQ r0) = false → parseCSVQ text = .error .badHeader) ∧
      (requiredOK (headerIdxQ r0) = true →
        parseCSVQ text = .ok (rowsToCentersQ (headerIdxQ r0) rest))) := by
  constructor
  · intro l0 rest hl
    unfold parseCSV
    rw [hl]
    exact ⟨fun hreq => by simp [hreq], fun hreq => by simp [hreq]⟩
  · intro r0 rest hr
    unfold parseCSVQ
    rw [hr]
    exact ⟨fun hreq => by simp [hreq], fun hreq => by simp [hreq]⟩

/-- Witness for C5: a header with none of the required columns is refused
by both variants. -/
theorem c5_witness :
    parseCSV csvBadHeader = .error .badHeader ∧
      parseCSVQ csvBadHeader = .error .badHeader :=
  ⟨((c5_header_assertion csvBadHeader).1 lineFooBar [lineOneTwo] (by decide)).1 (by decide),
   ((c5_header_assertion csvBadHeader).2 lineFooBar [lineOneTwo] (by decide)).1 (by decide)⟩

/-- C10: when the first non-blank line, split on commas and trimmed,
contains id, name, lat and lng case-insensitively, the comma-splitting
parser returns a record list and cannot fail, whatever the data rows
hold. -/
theorem c10_parser_total_on_valid_header (text : Str) (l0 : Str) (rest : List Str)
    (h : linesS text = l0 :: rest) (hreq : requiredOK (headerIdxS l0) = true) :
    ∃ l, parseCSV text = .ok l := by
  refine ⟨rowsToCentersS (headerIdxS l0) rest, ?_⟩
  unfold parseCSV
  rw [h]
  simp [hreq]

/-- Witness for C10 at a concrete input. -/
theorem c10_witness : ∃ l, parseCSV csvGood = .ok l :=
  c10_parser_total_on_valid_header csvGood lineHeaderGood [lineRowGood]
    (by decide) (by decide)

/-! Admin ingestion (C6). -/

/-- C6: a failing parse or validation leaves the batch exactly as it was
and surfaces an error message; only a fully successful parse-then-validate
run replaces the batch (and clears the error), for both the upload handler
and the paste handler. -/
theorem c6_admin_ingest_atomic (text : Str) (s : AppState) :
    (∀ e, parseCSV text = .error e →
      (onUploadCSV s text).centers = s.centers ∧
        ∃ m, (onUploadCSV s text).csvError = some m) ∧
    (∀ l e, parseCSV text = .ok l → validateCenters l (some TARGET_BOUNDS) = .error e →
      (onUploadCSV s text).centers = s.centers ∧
        ∃ m, (onUploadCSV s text).csvError = some m) ∧
    (∀ l, parseCSV text = .ok l → validateCenters l (some TARGET_BOUNDS) = .ok () →
      onUploadCSV s text = { centers := l, csvError := none }) ∧
    (∀ e, parseCSVQ text = .error e →
      (onPasteCSV s text).centers = s.centers ∧
        ∃ m, (onPasteCSV s text).csvError = some m) ∧
    (∀ l e, parseCSVQ text = .ok l → validateCenters l (some TARGET_BOUNDS) = .error e →
      (onPasteCSV s text).centers = s.centers ∧
        ∃ m, (onPasteCSV s text).csvError = some m) ∧
    (∀ l, parseCSVQ text = .ok l → validateCenters l (some TARGET_BOUNDS) = .ok () →
      onPasteCSV s text = { centers := l, csvError := none }) := by
  refine ⟨?_, ?_, ?_, ?_, ?_, ?_⟩
  · intro e h
    unfold onUploadCSV
    rw [h]
    exact ⟨rfl, parseErrMsg e, rfl⟩
  · intro l e h1 h2
    unfold onUploadCSV
    rw [h1]
    simp only []
    rw [h2]
    exact ⟨rfl, valErrMsg e, rfl⟩
  · intro l h1 h2
    unfold onUploadCSV
    rw [h1]
    simp only []
    rw [h2]
  · intro e h
    unfold onPasteCSV
    rw [h]
    exact ⟨rfl, parseErrMsg e, rfl⟩
  · intro l e h1 h2
    unfold onPasteCSV
    rw [h1]
    simp only []
    rw [h2]
    exact ⟨rfl, valErrMsg e, rfl⟩
  · intro l h1 h2
    unfold onPasteCSV
    rw [h1]
    simp only []
    rw [h2]

/-- Witness for C6: a bad upload leaves the batch alone and surfaces a
message; a good paste replaces it. -/
theorem c6_witness :
    ((onUploadCSV s0 csvBadHeader).centers = s0.centers ∧
      ∃ m, (onUploadCSV s0 csvBadHeader).csvError = some m) ∧
      onPasteCSV s0 csvGood = { centers := [centerGood], csvError := none } :=
  ⟨(c6_admin_ingest_atomic csvBadHeader s0).1 .badHeader (by decide),
   (c6_admin_ingest_atomic csvGood s0).2.2.2.2.2 [centerGood] (by decide) (by decide)⟩

/-! Coordinate coercion (C7). -/

/-- C7 (amended): a lat or lng cell that is non-empty after trimming and
not parseable as a JavaScript numeric literal coerces to NaN, and any
batch holding a record with a NaN coordinate is rejected by the Validator
with or without a bound. -/
theorem c7_invalid_coordinate (s : Str) (text : Str) (l : List Center)
    (b : Option Bounds) (c : Center) :
    (trimStr s ≠ [] → parseNumLit (trimStr s) = none → jsNumber s = .nan) ∧
    (parseCSV text = .ok l → c ∈ l →
      c.lat = JsNum.nan ∨ c.lng = JsNum.nan → ∃ e, validateCenters l b = .error e) := by
  constructor
  · intro h1 h2
    simp only [jsNumber]
    rw [if_neg h1, h2]
  · intro hp hmem hnan
    cases hv : validateCenters l b with
    | error e => exact ⟨e, rfl⟩
    | ok u =>
      cases u
      exfalso
      have hall := (validateCenters_ok_iff l b).mp hv
      have hok := hall c hmem
      unfold centerOK at hok
      rcases hnan with hh | hh <;> rw [hh] at hok <;> simp [JsNum.isNaN] at hok

/-- Counterexample to C7 as stated: an empty lat cell (invalid numeric
text) is coerced to the finite number zero, which passes the no-bound
validation — not to a non-finite value the Validator rejects. -/
theorem c7_counterexample :
    parseCSV csvEmptyLat = .ok [centerZeroLat] ∧
      validateCenters [centerZeroLat] none = .ok () ∧
      centerZeroLat.lat = JsNum.fin (.ofInt 0) := by decide

/-- Witness for C7 at concrete inputs. -/
theorem c7_witness :
    jsNumber strAbc = JsNum.nan ∧ ∃ e, validateCenters [centerNaNLat] none = .error e :=
  ⟨(c7_invalid_coordinate strAbc emptyText [] none centerNaNLat).1 (by decide) (by decide),
   (c7_invalid_coordinate strAbc csvBadLat [centerNaNLat] none centerNaNLat).2
     (by decide) (by decide) (Or.inl rfl)⟩

/-! Empty input (C8). -/

/-- C8: on empty input the comma-splitting parser returns the empty record
sequence without error, as the claim states, but the quote-aware variant
dereferences the missing header row and raises a TypeError instead. -/
theorem c8_empty_input_divergence :
    parseCSV emptyText = Except.ok [] ∧
      parseCSVQ emptyText = Except.error ParseErr.noHeaderRow := by decide

/-! Equivalence of the two parser variants (C9): splitting lemmas. -/

/-- A JavaScript split never yields an empty list of segments. -/
theorem splitOnP_ne_nil (p : Char → Bool) (cs : Str) : splitOnP p cs ≠ [] := by
  induction cs with
  | nil => simp [splitOnP]
  | cons c cs ih =>
    simp only [splitOnP]
    by_cases hp : p c = true
    · simp [hp]
    · simp only [hp]
      cases h : splitOnP p cs with
      | nil => simp
      | cons a t => simp

/-- A split with a single segment returns the whole input. -/
theorem splitOnP_singleton (p : Char → Bool) (cs : Str) (x : Str)
    (h : splitOnP p cs = [x]) : x = cs := by
  induction cs generalizing x with
  | nil =>
    simp [splitOnP] at h
    exact h
  | cons c cs ih =>
    simp only [splitOnP] at h
    by_cases hp : p c = true
    · rw [if_pos hp] at h
      obtain ⟨h1, h2⟩ := List.cons_eq_cons.mp h
      exact absurd h2 (splitOnP_ne_nil p cs)
    · rw [if_neg hp] at h
      cases hsp : splitOnP p cs with
      | nil => exact absurd hsp (splitOnP_ne_nil p cs)
      | cons a t =>
        rw [hsp] at h
        obtain ⟨h1, h2⟩ := List.cons_eq_cons.mp h
        cases t with
        | nil =>
          rw [ih a (by rw [hsp])] at h1
          exact h1.symm
        | cons b t2 => simp at h2

/-- Every character of a split segment comes from the input. -/
theorem mem_splitOnP (p : Char → Bool) (cs : Str) (part : Str)
    (hpart : part ∈ splitOnP p cs) (c : Char) (hc : c ∈ part) : c ∈ cs := by
  induction cs generalizing part with
  | nil =>
    simp [splitOnP] at hpart
    subst hpart
    simp at hc
  | cons a cs ih =>
    simp only [splitOnP] at hpart
    by_cases hp : p a = true
    · rw [if_pos hp] at hpart
      rcases List.mem_cons.mp hpart with h | h
      · subst h; simp at hc
      · exact List.mem_cons_of_mem a (ih part h hc)
    · rw [if_neg hp] at hpart
      cases hsp : splitOnP p cs with
      | nil => exact absurd hsp (splitOnP_ne_nil p cs)
      | cons x t =>
        rw [hsp] at hpart
        rcases List.mem_cons.mp hpart with h | h
        · subst h
          rcases List.mem_cons.mp hc with h2 | h2
          · exact List.mem_cons.mpr (Or.inl h2)
          · exact List.mem_cons_of_mem a
              (ih x (by rw [hsp]; exact List.mem_cons_self x t) h2)
        · exact List.mem_cons_of_mem a
            (ih part (by rw [hsp]; exact List.mem_cons_of_mem x h) hc)

/-- Without carriage returns, the regex line split is the plain newline
split. -/
theorem splitLinesRN_eq (cs : Str) (h : '\r' ∉ cs) :
    splitLinesRN cs = splitOnCh '\n' cs := by
  induction cs with
  | nil => rfl
  | cons c cs ih =>
    have hcr : c ≠ '\r' := fun hh => h (hh ▸ List.mem_cons_self c cs)
    have htail : '\r' ∉ cs := fun hh => h (List.mem_cons_of_mem c hh)
    rw [splitLinesRN.eq_def]
    by_cases hn : c = '\n'
    · subst hn
      simp only [splitOnCh, splitOnP]
      rw [ih htail]
      simp [splitOnCh]
    · have ih2 : splitLinesRN cs = splitOnP (fun x => x == '\n') cs := by
        have := ih htail
        simpa [splitOnCh] using this
      simp only [splitOnCh, splitOnP]
      rw [if_neg (by simpa using hn)]
      split
      · rename_i heq
        simp at heq
      · rename_i heq
        exact absurd (List.cons_eq_cons.mp heq).1 hcr
      · rename_i heq
        exact absurd (List.cons_eq_cons.mp heq).1 hn
      · rename_i heq
        obtain ⟨h1, h2⟩ := List.cons_eq_cons.mp heq
        subst h1
        subst h2
        rw [ih2]

/-! Trim lemmas. -/

/-- Dropping a prefix twice is dropping it once. -/
theorem dropWhile_dropWhile (p : Char → Bool) (l : Str) :
    List.dropWhile p (List.dropWhile p l) = List.dropWhile p l := by
  induction l with
  | nil => rfl
  | cons a t ih =>
    by_cases h : p a = true
    · simp [List.dropWhile_cons, h, ih]
    · simp [List.dropWhile_cons, h]

/-- A kept last element survives a prefix drop. -/
theorem dropWhile_append_last (p : Char → Bool) (a : Char) (m : Str)
    (h : p a = false) :
    List.dropWhile p (m ++ [a]) = List.dropWhile p m ++ [a] := by
  induction m with
  | nil => simp [List.dropWhile_cons, h]
  | cons c m ih =>
    by_cases hc : p c = true
    · simp [List.dropWhile_cons, hc, ih]
    · simp [List.dropWhile_cons, hc]

/-- A right trim keeps a non-whitespace head. -/
theorem trimR_cons (a : Char) (l : Str) (h : isWs a = false) :
    trimR (a :: l) = a :: trimR l := by
  unfold trimR
  rw [List.reverse_cons, dropWhile_append_last isWs a l.reverse h,
    List.reverse_append]
  rfl

/-- A left trim keeps a non-whitespace head untouched. -/
theorem trimL_cons (a : Char) (l : Str) (h : isWs a = false) :
    trimL (a :: l) = a :: l := by
  simp [trimL, List.dropWhile_cons, h]

/-- Left trim is idempotent. -/
theorem trimL_trimL (s : Str) : trimL (trimL s) = trimL s :=
  dropWhile_dropWhile isWs s

/-- Right trim is idempotent. -/
theorem trimR_trimR (s : Str) : trimR (trimR s) = trimR s := by
  unfold trimR
  rw [List.reverse_reverse, dropWhile_dropWhile]

/-- Dropping a prefix never lengthens a list. -/
theorem length_dropWhile_le (p : Char → Bool) (l : Str) :
    (List.dropWhile p l).length ≤ l.length := by
  induction l with
  | nil => simp
  | cons a t ih =>
    by_cases h : p a = true
    · simp only [List.dropWhile_cons, h, if_true, List.length_cons]
      omega
    · simp [List.dropWhile_cons, h]

/-- A left-trimmed string starts with a kept character (or is empty). -/
theorem trimL_head (s : Str) (a : Char) (l : Str) (h : trimL s = a :: l) :
    isWs a = false := by
  by_contra hw
  have hw2 : isWs a = true := by
    cases hws : isWs a
    · exact absurd hws hw
    · rfl
  have h2 : trimL (trimL s) = trimL s := trimL_trimL s
  rw [h] at h2
  rw [show trimL (a :: l) = trimL l by simp [trimL, List.dropWhile_cons, hw2]] at h2
  have h3 := congrArg List.length h2
  have hle := length_dropWhile_le isWs l
  simp only [trimL, List.length_cons] at h3 hle
  omega

/-- A left trim is invariant on a right-trimmed left-trimmed string. -/
theorem trimL_trimR (u : Str) (hu : trimL u = u) : trimL (trimR u) = trimR u := by
  cases hcase : u with
  | nil => simp [trimR, trimL]
  | cons a l =>
    rw [hcase] at hu
    have ha : isWs a = false := trimL_head (a :: l) a l hu
    rw [trimR_cons a l ha]
    exact trimL_cons a (trimR l) ha

/-- The full trim is idempotent. -/
theorem trimStr_idem (s : Str) : trimStr (trimStr s) = trimStr s := by
  unfold trimStr
  rw [trimL_trimR (trimL s) (trimL_trimL s), trimR_trimR]

/-! Cell and header lemmas. -/

/-- Trimming after indexing into a pre-trimmed cell list is the same as
trimming the raw cell (trim is idempotent, missing cells are empty). -/
theorem getD_map_trim (l : List Str) (i : Nat) :
    trimStr ((l.map trimStr).getD i []) = trimStr (l.getD i []) := by
  induction l generalizing i with
  | nil => simp
  | cons a t ih =>
    cases i with
    | zero => simp [trimStr_idem]
    | succ j => simpa using ih j

/-- Cell access through a pre-trimmed cell list. -/
theorem cellAt_map_trim (l : List Str) (i : Option Nat) :
    cellAt (l.map trimStr) i = cellAt l i := by
  cases i with
  | none => rfl
  | some j => exact getD_map_trim l j

/-- A find over a mapped list is a find with a composed predicate. -/
theorem findIdxS_map (p : Str → Bool) (f : Str → Str) (l : List Str) :
    findIdxS p (l.map f) = findIdxS (fun x => p (f x)) l := by
  induction l with
  | nil => rfl
  | cons a t ih =>
    simp only [List.map_cons, findIdxS]
    by_cases h : p (f a) = true
    · simp [h]
    · simp [h, ih]

/-- Both header lookups compute identical column indices. -/
theorem headerIdx_eq (line : Str) : headerIdxS line = headerIdxQ line := by
  simp only [headerIdxS, headerIdxQ, findIdxS_map]

/-- Tag-cell processing of the two parsers agrees: the comma parser's
guarded expression equals the quote parser's unguarded one. -/
theorem tags_if_eq (raw : Str) :
    (if raw = [] then []
     else ((splitDelims raw).map trimStr).filter (fun t => t ≠ [])) =
      ((splitDelims raw).map trimStr).filter (fun t => t ≠ []) := by
  by_cases h : raw = []
  · rw [if_pos h, h]
    decide
  · rw [if_neg h]

/-- Record construction of the two parsers agrees when the quote parser's
cells are the comma parser's cells trimmed. -/
theorem mkCenter_eq (cells : List Str) (ix : ColIdx) :
    mkCenterQ (cells.map trimStr) ix = mkCenterS cells ix := by
  unfold mkCenterQ mkCenterS
  simp only [cellAt_map_trim]
  rw [tags_if_eq]

/-! Row-list lemmas. -/

/-- Dropping a blank head segment commutes past `dlb` when the tail is
non-empty. -/
theorem dlb_cons_ne (r : Str) (rs : List Str) (h : rs ≠ []) :
    dlb (r :: rs) = r :: dlb rs := by
  cases rs with
  | nil => exact absurd rfl h
  | cons a t => rfl

/-- `dlb` keeps a non-blank head. -/
theorem dlb_cons_nonblank (r : Str) (rs : List Str) (h : trimStr r ≠ []) :
    dlb (r :: rs) = r :: dlb rs := by
  cases rs with
  | nil => simp [dlb, h]
  | cons a t => rfl

/-- Removing a trailing blank segment does not change the non-blank
rows. -/
theorem filter_dlb (l : List Str) :
    (dlb l).filter (fun r => !(trimStr r).isEmpty) =
      l.filter (fun r => !(trimStr r).isEmpty) := by
  induction l with
  | nil => rfl
  | cons r rs ih =>
    cases rs with
    | nil =>
      simp only [dlb]
      by_cases h : trimStr r = []
      · simp [h, List.filter_cons, List.isEmpty_iff]
      · rw [if_neg h]
    | cons a t =>
      rw [dlb_cons_ne r (a :: t) (by simp), List.filter_cons, List.filter_cons, ih]

/-- The quote parser's data loop builds one record per non-blank row. -/
theorem rowsToCentersQ_eq (ix : ColIdx) (l : List Str) :
    rowsToCentersQ ix l =
      (l.filter (fun r => !(trimStr r).isEmpty)).map
        (fun r => mkCenterQ (splitRowQ r) ix) := by
  induction l with
  | nil => rfl
  | cons r rs ih =>
    by_cases h : trimStr r = []
    · simp [rowsToCentersQ, h, List.filter_cons, List.isEmpty_iff, ih]
    · simp [rowsToCentersQ, h, List.filter_cons, List.isEmpty_iff, ih]

/-- On non-blank rows the comma parser's data loop never skips. -/
theorem rowsToCentersS_eq (ix : ColIdx) (l : List Str)
    (h : ∀ r ∈ l, trimStr r ≠ []) :
    rowsToCentersS ix l = l.map (fun r => mkCenterS (splitOnCh ',' r) ix) := by
  induction l with
  | nil => rfl
  | cons r rs ih =>
    have hr : trimStr r ≠ [] := h r (List.mem_cons_self r rs)
    have hskip : ¬((splitOnCh ',' r).length = 1 ∧
        trimStr ((splitOnCh ',' r).headD []) = []) := by
      rintro ⟨h1, h2⟩
      obtain ⟨x, hx⟩ := List.length_eq_one.mp h1
      rw [splitOnP_singleton (fun c => c == ',') r x hx] at hx
      rw [hx] at h2
      simp at h2
      exact hr h2
    simp only [rowsToCentersS]
    rw [if_neg hskip, ih (fun r2 hr2 => h r2 (List.mem_cons_of_mem r hr2))]
    rfl

/-! Scanner characterization lemmas. -/

/-- A split on a single character never yields the empty list. -/
theorem splitOnCh_ne_nil (sep : Char) (cs : Str) : splitOnCh sep cs ≠ [] :=
  splitOnP_ne_nil _ cs

/-- Splitting at a leading separator. -/
theorem splitOnCh_cons_sep (sep : Char) (cs : Str) :
    splitOnCh sep (sep :: cs) = [] :: splitOnCh sep cs := by
  simp [splitOnCh, splitOnP]

/-- Splitting at a leading non-separator. -/
theorem splitOnCh_cons_ne (sep c : Char) (cs : Str) (h : c ≠ sep)
    (h0 : Str) (t0 : List Str) (hsp : splitOnCh sep cs = h0 :: t0) :
    splitOnCh sep (c :: cs) = (c :: h0) :: t0 := by
  simp only [splitOnCh, splitOnP] at hsp ⊢
  rw [if_neg (by simp [h])]
  rw [hsp]

/-- The row scanner on a newline outside quotes. -/
theorem scanRows_cons_nl (cs : Str) (cur : Str) :
    scanRows ('\n' :: cs) false cur = cur :: scanRows cs false [] := rfl

/-- The row scanner on an ordinary character. -/
theorem scanRows_cons_other (c : Char) (cs : Str) (inQ : Bool) (cur : Str)
    (hc : c ≠ '"') (hn : ¬(c = '\n' ∧ inQ = false)) :
    scanRows (c :: cs) inQ cur = scanRows cs inQ (cur ++ [c]) := by
  rw [scanRows.eq_def]
  split
  · rename_i heq
    simp at heq
  · rename_i heq
    exact absurd (List.cons_eq_cons.mp heq).1 hc
  · rename_i heq
    exact absurd (List.cons_eq_cons.mp heq).1 hc
  · rename_i heq
    exact absurd ⟨(List.cons_eq_cons.mp heq).1, rfl⟩ hn
  · rename_i heq hover
    obtain ⟨h1, h2⟩ := List.cons_eq_cons.mp heq
    subst h1
    subst h2
    rfl

/-- The cell scanner on a comma outside quotes. -/
theorem scanCells_cons_comma (cs : Str) (cell : Str) :
    scanCells (',' :: cs) false cell = trimStr cell :: scanCells cs false [] := rfl

/-- The cell scanner on an ordinary character. -/
theorem scanCells_cons_other (c : Char) (cs : Str) (q : Bool) (cell : Str)
    (hc : c ≠ '"') (hn : ¬(c = ',' ∧ q = false)) :
    scanCells (c :: cs) q cell = scanCells cs q (cell ++ [c]) := by
  rw [scanCells.eq_def]
  split
  · rename_i heq
    simp at heq
  · rename_i heq
    exact absurd (List.cons_eq_cons.mp heq).1 hc
  · rename_i heq
    exact absurd (List.cons_eq_cons.mp heq).1 hc
  · rename_i heq
    exact absurd ⟨(List.cons_eq_cons.mp heq).1, rfl⟩ hn
  · rename_i heq hover
    obtain ⟨h1, h2⟩ := List.cons_eq_cons.mp heq
    subst h1
    subst h2
    rfl

/-- Without quotes the row scanner is the plain newline split with a
pending prefix, a trailing blank segment dropped. -/
theorem scanRows_no_quote (cs : Str) (hq : '"' ∉ cs) : ∀ cur,
    scanRows cs false cur = dlb (consFirst cur (splitOnCh '\n' cs)) := by
  induction cs with
  | nil =>
    intro cur
    show (if trimStr cur = [] then [] else [cur]) = dlb (consFirst cur [[]])
    simp only [consFirst, List.append_nil]
    rfl
  | cons c cs ih =>
    intro cur
    have hc : c ≠ '"' := fun hh => hq (hh ▸ List.mem_cons_self c cs)
    have htail : '"' ∉ cs := fun hh => hq (List.mem_cons_of_mem c hh)
    obtain ⟨h0, t0, hsp⟩ :=
      List.exists_cons_of_ne_nil (splitOnCh_ne_nil '\n' cs)
    by_cases hn : c = '\n'
    · subst hn
      rw [scanRows_cons_nl, ih htail [], splitOnCh_cons_sep, hsp]
      simp only [consFirst, List.nil_append, List.append_nil]
      rw [dlb_cons_ne cur (h0 :: t0) (by simp)]
    · rw [scanRows_cons_other c cs false cur hc (fun hh => hn hh.1),
        ih htail (cur ++ [c]),
        splitOnCh_cons_ne '\n' c cs hn h0 t0 hsp, hsp]
      simp only [consFirst]
      rw [List.append_assoc]
      rfl

/-- Without quotes the cell scanner is the plain comma split with a
pending prefix, every cell trimmed. -/
theorem scanCells_no_quote (r : Str) (hq : '"' ∉ r) : ∀ cell,
    scanCells r false cell = (consFirst cell (splitOnCh ',' r)).map trimStr := by
  induction r with
  | nil =>
    intro cell
    show [trimStr cell] = (consFirst cell [[]]).map trimStr
    simp [consFirst]
  | cons c cs ih =>
    intro cell
    have hc : c ≠ '"' := fun hh => hq (hh ▸ List.mem_cons_self c cs)
    have htail : '"' ∉ cs := fun hh => hq (List.mem_cons_of_mem c hh)
    obtain ⟨h0, t0, hsp⟩ :=
      List.exists_cons_of_ne_nil (splitOnCh_ne_nil ',' cs)
    by_cases hn : c = ','
    · subst hn
      rw [scanCells_cons_comma, ih htail [], splitOnCh_cons_sep, hsp]
      simp [consFirst]
    · rw [scanCells_cons_other c cs false cell hc (fun hh => hn hh.1),
        ih htail (cell ++ [c]),
        splitOnCh_cons_ne ',' c cs hn h0 t0 hsp, hsp]
      simp only [consFirst]
      rw [List.append_assoc]
      rfl

/-- Without quotes the quote-aware row splitter is the plain comma split
with trimmed cells. -/
theorem splitRowQ_no_quote (r : Str) (hq : '"' ∉ r) :
    splitRowQ r = (splitOnCh ',' r).map trimStr := by
  unfold splitRowQ
  rw [scanCells_no_quote r hq []]
  obtain ⟨h0, t0, hsp⟩ :=
    List.exists_cons_of_ne_nil (splitOnCh_ne_nil ',' r)
  rw [hsp]
  simp [consFirst]

/-- Shape of the comma-splitting parser once its line list is known. -/
theorem parseCSV_shape (text : Str) (l0 : Str) (rest : List Str)
    (h : linesS text = l0 :: rest) :
    parseCSV text =
      if requiredOK (headerIdxS l0) then
        Except.ok (rowsToCentersS (headerIdxS l0) rest)
      else Except.error ParseErr.badHeader := by
  unfold parseCSV
  rw [h]

/-- Shape of the quote-aware parser once its row list is known. -/
theorem parseCSVQ_shape (text : Str) (r0 : Str) (rest : List Str)
    (h : rowsQ text = r0 :: rest) :
    parseCSVQ text =
      if requiredOK (headerIdxQ r0) then
        Except.ok (rowsToCentersQ (headerIdxQ r0) rest)
      else Except.error ParseErr.badHeader := by
  unfold parseCSVQ
  rw [h]

/-- C9: on input with no double quote, no carriage return, and a non-blank
first line, the comma-splitting and the quote-aware parser variants return
identical results. -/
theorem c9_parser_variants_agree (text : Str)
    (hq : '"' ∉ text) (hr : '\r' ∉ text)
    (hf : trimStr ((splitOnCh '\n' text).headD []) ≠ []) :
    parseCSV text = parseCSVQ text := by
  obtain ⟨p0, ps, hparts⟩ :=
    List.exists_cons_of_ne_nil (splitOnCh_ne_nil '\n' text)
  have hp0 : trimStr p0 ≠ [] := by
    rw [hparts] at hf
    simpa using hf
  have hcond : (!(trimStr p0).isEmpty) = true := by
    simp [List.isEmpty_iff, hp0]
  have hlines : linesS text = p0 :: ps.filter (fun l => !(trimStr l).isEmpty) := by
    unfold linesS
    rw [splitLinesRN_eq text hr, hparts, List.filter_cons, if_pos hcond]
  have hrows : rowsQ text = p0 :: dlb ps := by
    unfold rowsQ
    rw [scanRows_no_quote text hq [], hparts]
    simp only [consFirst, List.nil_append]
    exact dlb_cons_nonblank p0 ps hp0
  rw [parseCSV_shape text p0 _ hlines, parseCSVQ_shape text p0 _ hrows,
    headerIdx_eq p0]
  by_cases hreq : requiredOK (headerIdxQ p0) = true
  · rw [if_pos hreq, if_pos hreq]
    have hnb : ∀ r ∈ ps.filter (fun l => !(trimStr l).isEmpty), trimStr r ≠ [] := by
      intro r hrmem
      have h2 := (List.mem_filter.mp hrmem).2
      simp only [Bool.not_eq_true', List.isEmpty_iff] at h2
      intro hh
      rw [hh] at h2
      simp at h2
    congr 1
    rw [rowsToCentersQ_eq (headerIdxQ p0) (dlb ps), filter_dlb ps,
      rowsToCentersS_eq (headerIdxQ p0) _ hnb]
    apply List.map_congr_left
    intro r hrmem
    have hrps : r ∈ ps := (List.mem_filter.mp hrmem).1
    have hmemsplit : r ∈ splitOnP (fun c => c == '\n') text := by
      rw [show splitOnP (fun c => c == '\n') text = splitOnCh '\n' text from rfl,
        hparts]
      exact List.mem_cons_of_mem p0 hrps
    have hqr : '"' ∉ r := fun hh =>
      hq (mem_splitOnP (fun c => c == '\n') text r hmemsplit '"' hh)
    rw [splitRowQ_no_quote r hqr, mkCenter_eq]
  · rw [if_neg hreq, if_neg hreq]

/-- Witness for C9 at a concrete quote-free input. -/
theorem c9_witness : parseCSV csvGood = parseCSVQ csvGood :=
  c9_parser_variants_agree csvGood (by decide) (by decide) (by decide)
